import Mathlib

/-!
Verification development for the `backend_chatbot` repository.

This file shallowly embeds the two core components of the repository:

* `app/services/pdf_service.py` — text cleaning (`_clean_extracted_text`,
  `_remove_repetitive_headers`) and semantic chunking
  (`split_text_into_chunks`, `_split_large_paragraph`, `_get_last_sentence`);
* `app/services/rerank_service.py` — candidate reranking
  (`rerank_documents`, `_distance_to_score`, `_length_score`,
  `_keyword_overlap_score`, `_tokenize`, `_metadata_score`,
  `get_rerank_explanation`).

Modelling conventions:

* Python strings are modelled as `List Char` (`Str`); `String.toList` (`S`)
  injects literals.
* Python's `str.strip()` / regex `\s` whitespace is modelled by `isPySpace`,
  covering the ASCII whitespace characters plus the Latin-1 whitespace
  codepoints (FS/GS/RS/US, NEL, NBSP).  Exotic Unicode spaces (U+2000 …)
  are outside the modelled character range.
* Python `str.lower()` is modelled on ASCII plus the accented Latin letters
  that occur in the source's character classes.
* Python floats are modelled as exact rationals (`ℚ`); the float literals
  0.4/0.3/0.2/0.1/0.5/0.7 of the source become the corresponding rationals,
  and `round(x, 3)` becomes exact decimal round-half-to-even (`round3`).
* Python ints (`chunk_size`, `overlap`, `top_k`, `chunk_index`,
  `total_chunks`) are modelled as `ℤ`; Python slice semantics (including
  negative indices and `s[-0:] = s`) are modelled by `pySliceFrom` /
  `pySliceTo`.
* The regex substitutions of the source are modelled by the equivalent
  maximal-run / line-oriented scanners defined below; each definition's
  doc comment names the regex it embeds.
-/

/-- Python strings, modelled as lists of characters. -/
abbrev Str := List Char

/-- Injection of Lean string literals into the model. -/
def S (s : String) : Str := s.toList

/-- Whitespace as recognised by Python's `str.strip()` and regex `\s`
(ASCII whitespace plus the Latin-1 whitespace codepoints). -/
def isPySpace (c : Char) : Bool :=
  c = ' ' ∨ c = '\t' ∨ c = '\n' ∨ c = '\r' ∨ c = '\x0b' ∨ c = '\x0c' ∨
  c = '\x1c' ∨ c = '\x1d' ∨ c = '\x1e' ∨ c = '\x1f' ∨ c = '\x85' ∨ c = '\xa0'

/-- Python `str.strip()`: drop leading and trailing whitespace. -/
def pyStrip (s : Str) : Str :=
  ((s.dropWhile isPySpace).reverse.dropWhile isPySpace).reverse

/-- Python `text.split('\n')`. -/
def splitLines : Str → List Str
  | [] => [[]]
  | c :: rest =>
    if c = '\n' then [] :: splitLines rest
    else
      match splitLines rest with
      | [] => [[c]]
      | h :: t => (c :: h) :: t

/-- Python `'\n'.join(lines)`. -/
def joinLines : List Str → Str
  | [] => []
  | [l] => l
  | l :: ls => l ++ '\n' :: joinLines ls

/-- Tail of `collapseRunsOf`: `n` pending occurrences of `ch` have been read. -/
def crAux (ch : Char) (thr keep : Nat) : Nat → Str → Str
  | n, [] => if thr ≤ n then List.replicate keep ch else List.replicate n ch
  | n, c :: rest =>
    if c = ch then crAux ch thr keep (n + 1) rest
    else
      (if thr ≤ n then List.replicate keep ch else List.replicate n ch) ++
        c :: crAux ch thr keep 0 rest

/-- Replace every maximal run of `thr` or more copies of `ch` by `keep`
copies.  Embeds `re.sub(ch{thr,}, ch*keep, text)`:
with `(' ', 2, 1)` this is `re.sub(r' {2,}', ' ', text)`,
with `('\n', 4, 3)` it is `re.sub(r'\n{4,}', '\n\n\n', text)`,
with `('\n', 3, 2)` it is `re.sub(r'\n{3,}', '\n\n', text)`. -/
def collapseRunsOf (ch : Char) (thr keep : Nat) (s : Str) : Str :=
  crAux ch thr keep 0 s

/-- Tail of `removeRuns`: a run of `n` copies of `c` has been read. -/
def rrAux : Char → Nat → Str → Str
  | c, n, [] => if 11 ≤ n ∧ c ≠ '\n' then [] else List.replicate n c
  | c, n, x :: rest =>
    if x = c then rrAux c (n + 1) rest
    else (if 11 ≤ n ∧ c ≠ '\n' then [] else List.replicate n c) ++ rrAux x 1 rest

/-- Embeds `re.sub(r'(.)\1{10,}', '', text)`: delete every maximal run of
11 or more identical characters (`.` does not match a newline). -/
def removeRuns : Str → Str
  | [] => []
  | c :: rest => rrAux c 1 rest

/-- Characters removed by the control-character substitution
`re.sub(r'[\x00-\x08\x0b-\x0c\x0e-\x1f\x7f-\x9f]', '', text)`. -/
def isStripCtrl (c : Char) : Bool :=
  c.toNat ≤ 0x08 ∨ c.toNat = 0x0b ∨ c.toNat = 0x0c ∨
  (0x0e ≤ c.toNat ∧ c.toNat ≤ 0x1f) ∨ (0x7f ≤ c.toNat ∧ c.toNat ≤ 0x9f)

/-- Python `str.lower()` on the character range used by the source
(ASCII plus the accented Latin letters of the source's patterns). -/
def pyLower (c : Char) : Char :=
  if 'A' ≤ c ∧ c ≤ 'Z' then Char.ofNat (c.toNat + 32)
  else if c = 'Á' then 'á' else if c = 'É' then 'é' else if c = 'Í' then 'í'
  else if c = 'Ó' then 'ó' else if c = 'Ú' then 'ú' else if c = 'Ñ' then 'ñ'
  else if c = 'Ü' then 'ü' else c

/-- The character class
`[a-zA-Z0-9\s\.,;:¿?¡!\-áéíóúÁÉÍÓÚñÑüÜ]` of the garbage-line test. -/
def isAllowedChar (c : Char) : Bool :=
  ('a' ≤ c ∧ c ≤ 'z') ∨ ('A' ≤ c ∧ c ≤ 'Z') ∨ ('0' ≤ c ∧ c ≤ '9') ∨
  isPySpace c ∨
  c = '.' ∨ c = ',' ∨ c = ';' ∨ c = ':' ∨ c = '¿' ∨ c = '?' ∨ c = '¡' ∨
  c = '!' ∨ c = '-' ∨
  c = 'á' ∨ c = 'é' ∨ c = 'í' ∨ c = 'ó' ∨ c = 'ú' ∨
  c = 'Á' ∨ c = 'É' ∨ c = 'Í' ∨ c = 'Ó' ∨ c = 'Ú' ∨
  c = 'ñ' ∨ c = 'Ñ' ∨ c = 'ü' ∨ c = 'Ü'

/-- Number of characters outside the allowed class
(`len(re.findall(r'[^...]', line))`). -/
def specialCount (l : Str) : Nat := (l.filter (fun c => ¬ isAllowedChar c)).length

/-- The character class `[\d\s\-\|\.]` of the table-border artifact test. -/
def isTableBorderChar (c : Char) : Bool :=
  c.isDigit ∨ isPySpace c ∨ c = '-' ∨ c = '|' ∨ c = '.'

/-- ASCII digit test (`\d`). -/
def isDigitChar (c : Char) : Bool := c.isDigit

/-- Skip leading whitespace (`\s*`). -/
def skipWs (s : Str) : Str := s.dropWhile isPySpace

/-- Match one literal character. -/
def lit (c : Char) : Str → Option Str
  | x :: r => if x = c then some r else none
  | [] => none

/-- Match `\d+`: one or more digits. -/
def digits1 (s : Str) : Option Str :=
  let d := s.takeWhile isDigitChar
  if d = [] then none else some (s.drop d.length)

/-- Match `\s+`: one or more whitespace characters (greedy). -/
def wsPlus : Str → Option Str
  | x :: r => if isPySpace x then some (skipWs r) else none
  | [] => none

/-- Match a sequence of literal characters. -/
def lits : List Char → Str → Option Str
  | [], s => some s
  | c :: cs, s => match lit c s with
    | some r => lits cs r
    | none => none

/-- Only whitespace remains (`\s*$`). -/
def wsEnd (s : Str) : Bool := skipWs s = []

/-- Footer pattern `^\s*p[aá]gina\s+\d+\s*$` (on the lowered line). -/
def footerPagina (l : Str) : Bool :=
  match lit 'p' (skipWs l) with
  | none => false
  | some r1 =>
    let r2 := match lit 'a' r1 with
      | some r => some r
      | none => lit 'á' r1
    match r2 with
    | none => false
    | some r2 =>
      match lits ['g', 'i', 'n', 'a'] r2 with
      | none => false
      | some r3 =>
        match wsPlus r3 with
        | none => false
        | some r4 =>
          match digits1 r4 with
          | none => false
          | some r5 => wsEnd r5

/-- Footer pattern `^\s*page\s+\d+\s*$` (on the lowered line). -/
def footerPage (l : Str) : Bool :=
  match lits ['p', 'a', 'g', 'e'] (skipWs l) with
  | none => false
  | some r1 =>
    match wsPlus r1 with
    | none => false
    | some r2 =>
      match digits1 r2 with
      | none => false
      | some r3 => wsEnd r3

/-- Footer pattern `^\s*\d+\s*/\s*\d+\s*$`. -/
def footerSlash (l : Str) : Bool :=
  match digits1 (skipWs l) with
  | none => false
  | some r1 =>
    match lit '/' (skipWs r1) with
    | none => false
    | some r2 =>
      match digits1 (skipWs r2) with
      | none => false
      | some r3 => wsEnd r3

/-- Footer pattern `^\s*\d+\s+de\s+\d+\s*$`. -/
def footerDe (l : Str) : Bool :=
  match digits1 (skipWs l) with
  | none => false
  | some r1 =>
    match wsPlus r1 with
    | none => false
    | some r2 =>
      match lits ['d', 'e'] r2 with
      | none => false
      | some r3 =>
        match wsPlus r3 with
        | none => false
        | some r4 =>
          match digits1 r4 with
          | none => false
          | some r5 => wsEnd r5

/-- Footer pattern `^\s*\[\s*\d+\s*\]\s*$`. -/
def footerBracket (l : Str) : Bool :=
  match lit '[' (skipWs l) with
  | none => false
  | some r1 =>
    match digits1 (skipWs r1) with
    | none => false
    | some r2 =>
      match lit ']' (skipWs r2) with
      | none => false
      | some r3 => wsEnd r3

/-- Footer pattern `^\s*-\s*\d+\s*-\s*$`. -/
def footerDash (l : Str) : Bool :=
  match lit '-' (skipWs l) with
  | none => false
  | some r1 =>
    match digits1 (skipWs r1) with
    | none => false
    | some r2 =>
      match lit '-' (skipWs r2) with
      | none => false
      | some r3 => wsEnd r3

/-- `any(re.match(pattern, line.lower()) for pattern in footer_patterns)`. -/
def isFooter (l : Str) : Bool :=
  let low := l.map pyLower
  footerPagina low ∨ footerPage low ∨ footerSlash low ∨ footerDe low ∨
  footerBracket low ∨ footerDash low

/-- Word character of regex `\w` over the modelled character range
(ASCII alphanumerics, underscore, accented Latin letters). -/
def isWordChar (c : Char) : Bool :=
  ('a' ≤ c ∧ c ≤ 'z') ∨ ('A' ≤ c ∧ c ≤ 'Z') ∨ ('0' ≤ c ∧ c ≤ '9') ∨ c = '_' ∨
  c = 'á' ∨ c = 'é' ∨ c = 'í' ∨ c = 'ó' ∨ c = 'ú' ∨
  c = 'Á' ∨ c = 'É' ∨ c = 'Í' ∨ c = 'Ó' ∨ c = 'Ú' ∨
  c = 'ñ' ∨ c = 'Ñ' ∨ c = 'ü' ∨ c = 'Ü'

/-- Character class `[\w\.-]` of the URL/email test. -/
def isEmailChar (c : Char) : Bool := isWordChar c ∨ c = '.' ∨ c = '-'

/-- Embeds `re.match(r'^(https?://|www\.|[\w\.-]+@[\w\.-]+).*$', line)`:
the line starts with a URL scheme, `www.`, or an email-like token. -/
def isUrlEmail (l : Str) : Bool :=
  (S "http://").isPrefixOf l ∨ (S "https://").isPrefixOf l ∨
  (S "www.").isPrefixOf l ∨
  (let r := l.takeWhile isEmailChar
   decide (r ≠ []) &&
     (match l.drop r.length with
      | '@' :: c :: _ => isEmailChar c
      | _ => false))

/-- One iteration of the line-cleaning loop of `_clean_extracted_text`
(lines 56–87 of `pdf_service.py`): strip the line, drop blank lines,
garbage-ratio lines, short table-border lines, footer lines and short
URL/email lines; keep the stripped line otherwise.  The float comparison
`special_chars / total_chars > 0.4` is modelled exactly by
`5 * special > 2 * total` (the two are equivalent for every line short
enough to be representable). -/
def lineFilter (line : Str) : Option Str :=
  let l := pyStrip line
  if l = [] then none
  else if 0 < l.length ∧ 2 * l.length < 5 * specialCount l then none
  else if l.length < 15 ∧ l.all isTableBorderChar then none
  else if isFooter l then none
  else if isUrlEmail l ∧ l.length < 100 then none
  else some l

/-- The lines kept by `_remove_repetitive_headers`: a line whose stripped
form is non-blank survives iff that stripped form is not a repetitive
header (stripped length < 100 and more than 3 occurrences across the
document); blank lines are kept as empty lines. -/
def rrhFun (stripped : List Str) (l : Str) : Option Str :=
  let s := pyStrip l
  if s ≠ [] then
    if s.length < 100 ∧ 3 < stripped.count s then none else some l
  else some []

def rrhKept (t : Str) : List Str :=
  (splitLines t).filterMap (rrhFun ((splitLines t).map pyStrip))

/-- Embeds `PDFService._remove_repetitive_headers`. -/
def removeRepetitiveHeaders (t : Str) : Str := joinLines (rrhKept t)

/-- Embeds `PDFService._clean_extracted_text`, stage by stage:
control-character removal, long-run removal, the per-line filter,
space collapapse, newline collapse, per-line strip, and repetitive
header removal. -/
def cleanExtractedText (text : Str) : Str :=
  let t1 := text.filter (fun c => ¬ isStripCtrl c)
  let t2 := removeRuns t1
  let keptL := (splitLines t2).filterMap lineFilter
  let t3 := joinLines keptL
  let t4 := collapseRunsOf ' ' 2 1 t3
  let t5 := collapseRunsOf '\n' 4 3 t4
  let t6 := joinLines ((splitLines t5).map pyStrip)
  removeRepetitiveHeaders t6

/-- Python `text.split('\n\n')`: split on the two-character separator,
leftmost occurrence first. -/
def splitNN : Str → List Str
  | [] => [[]]
  | [c] => [[c]]
  | c1 :: c2 :: rest =>
    if c1 = '\n' ∧ c2 = '\n' then [] :: splitNN rest
    else
      match splitNN (c2 :: rest) with
      | [] => [[c1]]
      | h :: t => (c1 :: h) :: t

/-- Scanner for Python `re.split(r'(?<=[.!?])\s+', text)` (`useLA = false`)
and `re.split(r'(?<=[.!?])\s+(?=[A-Z])', text)` (`useLA = true`):
`cur` is the piece being accumulated and `pend` the whitespace run read
since `cur` last ended in `.`, `!` or `?`.  A pending run becomes a
separator when the next character arrives (for `useLA`, only when that
character is an ASCII capital); at the end of input a pending run is a
separator exactly when no lookahead is required.
`lastIsPunct` tests whether the piece so far ends in `.`, `!` or `?`
(the lookbehind `(?<=[.!?])`). -/
def lastIsPunct (cur : Str) : Bool :=
  match cur.getLast? with
  | some p => p = '.' ∨ p = '!' ∨ p = '?'
  | none => false

def sentSplitGo (useLA : Bool) (cur pend : Str) : Str → List Str
  | [] =>
    if pend = [] then [cur]
    else if useLA then [cur ++ pend] else [cur, []]
  | c :: rest =>
    if pend ≠ [] then
      if isPySpace c then sentSplitGo useLA cur (pend ++ [c]) rest
      else if useLA then
        if 'A' ≤ c ∧ c ≤ 'Z' then cur :: sentSplitGo useLA [c] [] rest
        else sentSplitGo useLA (cur ++ pend ++ [c]) [] rest
      else cur :: sentSplitGo useLA [c] [] rest
    else
      if isPySpace c ∧ lastIsPunct cur then sentSplitGo useLA cur [c] rest
      else sentSplitGo useLA (cur ++ [c]) [] rest

/-- Sentence split: `re.split(r'(?<=[.!?])\s+', text)` when `useLA = false`,
`re.split(r'(?<=[.!?])\s+(?=[A-Z])', text)` when `useLA = true`. -/
def sentSplit (useLA : Bool) (s : Str) : List Str := sentSplitGo useLA [] [] s

/-- Embeds `PDFService._get_last_sentence`. -/
def getLastSentence (t : Str) : Str := pyStrip ((sentSplit false t).getLastD [])

/-- Python slice `s[a:]` for an arbitrary integer `a`
(in particular `s[-0:] = s` and negative indices clamp at 0). -/
def pySliceFrom (a : Int) (s : Str) : Str :=
  if 0 ≤ a then s.drop a.toNat else s.drop (s.length - (-a).toNat)

/-- Python slice `l[:k]` for an arbitrary integer `k`. -/
def pySliceTo (k : Int) (l : List α) : List α :=
  if 0 ≤ k then l.take k.toNat else l.take (l.length - (-k).toNat)

/-- Embeds `PDFService._split_large_paragraph`: greedy sentence packing with
tail-overlap carry (`current_chunk[-overlap:]`, which for `overlap = 0` is
the whole previous chunk, per Python slicing). -/
def splitLargeParagraph (paragraph : Str) (chunkSize overlap : Int) : List Str :=
  let sentences := sentSplit true paragraph
  let step := fun (acc : List Str × Str) (s : Str) =>
    let chunks := acc.1
    let cur := acc.2
    if ((cur.length : Int) + s.length + 1) ≤ chunkSize then
      (chunks, if cur ≠ [] then cur ++ ' ' :: s else s)
    else if cur ≠ [] then
      let chunks' := chunks ++ [pyStrip cur]
      if (s.length : Int) ≤ chunkSize then
        let ovText := if (cur.length : Int) > overlap then pySliceFrom (-overlap) cur else cur
        (chunks', ovText ++ ' ' :: s)
      else (chunks', s)
    else (chunks, s)
  let fin := sentences.foldl step ([], [])
  if fin.2 ≠ [] then fin.1 ++ [pyStrip fin.2] else fin.1

/-- The chunk-emission loop over the result of `_split_large_paragraph`
(lines 197–202 of `pdf_service.py`): seed the first sentence chunk with
`previous_sentence` when it is non-empty and fits the overlap budget,
emit every chunk stripped, and track the last sentence of the final
(seeded) chunk.  Returns the emitted chunks and the new
`previous_sentence`. -/
def emitSentChunks (overlap : Int) (prev : Str) : List Str → List Str × Str
  | [] => ([], prev)
  | first :: rest =>
    let seeded := if prev ≠ [] ∧ ((prev.length : Int) ≤ overlap)
      then prev ++ ' ' :: first else first
    let pieces := seeded :: rest
    (pieces.map pyStrip, getLastSentence (pieces.getLastD []))

/-- The loop state of `split_text_into_chunks`. -/
structure ChunkState where
  chunks : List Str
  current : Str
  prevSent : Str
deriving DecidableEq

/-- One iteration of the paragraph loop of `split_text_into_chunks`
(lines 162–207 of `pdf_service.py`). -/
def processParagraph (chunkSize overlap : Int) (st : ChunkState) (para : Str) :
    ChunkState :=
  let p := pyStrip para
  if p = [] then st
  else if ((st.current.length : Int) + p.length + 2) ≤ chunkSize then
    { st with current := if st.current ≠ [] then st.current ++ '\n' :: '\n' :: p else p }
  else if st.current ≠ [] then
    let newCur := if st.prevSent ≠ [] ∧ ((st.prevSent.length : Int) ≤ overlap)
      then st.prevSent ++ '\n' :: '\n' :: p else p
    { chunks := st.chunks ++ [pyStrip st.current]
      current := newCur
      prevSent := getLastSentence newCur }
  else
    if (p.length : Int) > chunkSize then
      let scs := splitLargeParagraph p chunkSize overlap
      let em := emitSentChunks overlap st.prevSent scs
      { chunks := st.chunks ++ em.1, current := [], prevSent := em.2 }
    else
      { st with current := p, prevSent := getLastSentence p }

/-- Embeds `PDFService.split_text_into_chunks`: newline normalisation,
paragraph split, the paragraph loop, final chunk emission and the
minimum-length filter (`len(c) > 50`). -/
def splitTextIntoChunks (text : Str) (chunkSize overlap : Int) : List Str :=
  let t := collapseRunsOf '\n' 3 2 text
  let paras := splitNN t
  let st := paras.foldl (processParagraph chunkSize overlap) ⟨[], [], []⟩
  let allChunks := if st.current ≠ [] then st.chunks ++ [pyStrip st.current] else st.chunks
  allChunks.filter (fun c => decide (c ≠ []) && decide (50 < c.length))

/-- Document metadata as used by `_metadata_score`: the two keys the score
reads, each possibly absent.  A `Meta` with both fields absent models a
dict without those keys; an absent dict (`None` or `{}`, both falsy in
Python) is modelled as `none : Option Meta`. -/
structure Meta where
  chunkIndex : Option Int
  totalChunks : Option Int
deriving DecidableEq

/-- Embeds `RerankService._distance_to_score`:
`max(0, 1 - (distance / 2))`. -/
def distanceToScore (distance : ℚ) : ℚ := max 0 (1 - distance / 2)

/-- Embeds `RerankService._length_score` with its default parameters
`optimal_min = 200`, `optimal_max = 1500`. -/
def lengthScore (document : Str) : ℚ :=
  let length := document.length
  if length < 200 then (length : ℚ) / 200
  else if 1500 < length then max 0.7 (1500 / (length : ℚ))
  else 1

/-- Embeds `RerankService._tokenize`: maximal `\w+` runs, keeping tokens of
length > 2.  `wrAux` accumulates the current word-character run. -/
def wrAux (cur : Str) : Str → List Str
  | [] => if cur = [] then [] else [cur]
  | c :: rest =>
    if isWordChar c then wrAux (cur ++ [c]) rest
    else if cur = [] then wrAux [] rest
    else cur :: wrAux [] rest

/-- Embeds `RerankService._tokenize`. -/
def tokenize (text : Str) : List Str :=
  (wrAux [] text).filter (fun t => 2 < t.length)

/-- The stop-word set of `_keyword_overlap_score` (verbatim from the
source, including the duplicated `"a"`). -/
def stopwords : List Str :=
  [S "el", S "la", S "de", S "que", S "y", S "a", S "en", S "un", S "ser",
   S "se", S "no", S "por", S "con", S "para", S "una", S "su", S "es",
   S "al", S "lo", S "del", S "las",
   S "the", S "a", S "an", S "and", S "or", S "but", S "in", S "on",
   S "at", S "to", S "for"]

/-- Embeds `RerankService._keyword_overlap_score`: the Python `set`s of
tokens are modelled as deduplicated lists, so list lengths are set
cardinalities. -/
def keywordOverlapScore (query document : Str) : ℚ :=
  let queryTokens := ((tokenize (query.map pyLower)).dedup).filter
    (fun t => ¬ stopwords.contains t)
  let docTokens := ((tokenize (document.map pyLower)).dedup).filter
    (fun t => ¬ stopwords.contains t)
  if queryTokens = [] then 0.5
  else
    let overlap := (queryTokens.filter (fun t => docTokens.contains t)).length
    min 1 ((overlap : ℚ) / queryTokens.length)

/-- Embeds `RerankService._metadata_score`: baseline 0.5, plus the
`chunk_index` boost, plus the `total_chunks` boost, capped at 1. -/
def metadataScore : Option Meta → ℚ
  | none => 0.5
  | some md =>
    let s1 : ℚ := 0.5 + (match md.chunkIndex with
      | none => 0
      | some ci => if ci < 3 then 0.3 else if ci < 6 then 0.2 else 0.1)
    let s2 : ℚ := s1 + (match md.totalChunks with
      | none => 0
      | some t => if t ≤ 5 then 0.2 else if t ≤ 10 then 0.1 else 0)
    min 1 s2

/-- The combined score of one candidate, exactly as computed on lines
59–64 of `rerank_service.py`:
`similarity*0.4 + keyword*0.3 + length*0.2 + metadata*0.1`. -/
def combinedScore (query document : Str) (distance : ℚ) (meta : Option Meta) : ℚ :=
  distanceToScore distance * 0.4 + keywordOverlapScore query document * 0.3 +
    lengthScore document * 0.2 + metadataScore meta * 0.1

/-- One entry of the `scored_docs` list built by `rerank_documents`. -/
structure ScoredDoc where
  document : Str
  score : ℚ
  distance : ℚ
  metadata : Option Meta
  simScore : ℚ
  kwScore : ℚ
  lenScore : ℚ
  metaScore : ℚ
deriving DecidableEq

/-- The `scored_docs` list of `rerank_documents` (lines 43–75):
one `ScoredDoc` per `enumerate(zip(documents, distances))` entry.
`metas[i]?` models `metadatas[i] if metadatas and i < len(metadatas)
else None` (and the `else {}` stored in the entry, an empty dict being
score-equivalent to `None`). -/
def scoredDocuments (query : Str) (documents : List Str) (distances : List ℚ)
    (metas : List Meta) : List ScoredDoc :=
  ((documents.zip distances).enum).map (fun p =>
    let i := p.1
    let doc := p.2.1
    let dist := p.2.2
    { document := doc
      score := combinedScore query doc dist metas[i]?
      distance := dist
      metadata := metas[i]?
      simScore := distanceToScore dist
      kwScore := keywordOverlapScore query doc
      lenScore := lengthScore doc
      metaScore := metadataScore metas[i]? })

/-- Embeds `RerankService.rerank_documents`: score, sort by descending
combined score (Python's stable `list.sort(reverse=True)` is a stable
insertion sort on the reversed order), slice the top `top_k`
(Python slice semantics), and project out documents, scores and
metadatas. -/
def rerankDocuments (query : Str) (documents : List Str) (distances : List ℚ)
    (metas : List Meta) (topK : Int) :
    List Str × List ℚ × List (Option Meta) :=
  if documents = [] then ([], [], [])
  else
    let scored := scoredDocuments query documents distances metas
    let sorted := scored.insertionSort (fun a b => b.score ≤ a.score)
    let top := pySliceTo topK sorted
    (top.map (fun d => d.document), top.map (fun d => d.score),
     top.map (fun d => d.metadata))

/-- Round-half-to-even of a rational (Python's `round` on an exact value). -/
def rhe (y : ℚ) : ℤ :=
  let f := ⌊y⌋
  let r := y - f
  if r < 1 / 2 then f
  else if 1 / 2 < r then f + 1
  else if f % 2 = 0 then f else f + 1

/-- Python `round(x, 3)`, modelled as exact decimal round-half-to-even at
the third decimal place. -/
def round3 (x : ℚ) : ℚ := (rhe (x * 1000) : ℚ) / 1000

/-- One entry of the list returned by `get_rerank_explanation`. -/
structure RerankExplanation where
  preview : Str
  docLength : Nat
  combined : ℚ
  sim : ℚ
  kw : ℚ
  lenS : ℚ
  metaS : ℚ
  origDistance : ℚ
  metadata : Option Meta
deriving DecidableEq

/-- Embeds `RerankService.get_rerank_explanation` (lines 190–232):
the same per-candidate sub-scores and weighted combination as
`rerank_documents`, rounded to three decimals, plus a document preview. -/
def rerankExplanations (query : Str) (documents : List Str) (distances : List ℚ)
    (metas : List Meta) : List RerankExplanation :=
  ((documents.zip distances).enum).map (fun p =>
    let i := p.1
    let doc := p.2.1
    let dist := p.2.2
    let sim := distanceToScore dist
    let lenSc := lengthScore doc
    let kwSc := keywordOverlapScore query doc
    let mSc := metadataScore metas[i]?
    let combined := sim * 0.4 + kwSc * 0.3 + lenSc * 0.2 + mSc * 0.1
    { preview := if 100 < doc.length then doc.take 100 ++ S "..." else doc
      docLength := doc.length
      combined := round3 combined
      sim := round3 sim
      kw := round3 kwSc
      lenS := round3 lenSc
      metaS := round3 mSc
      origDistance := round3 dist
      metadata := metas[i]? })

/-! ## Score bounds of the reranker sub-scores -/

theorem distanceToScore_nonneg (d : ℚ) : 0 ≤ distanceToScore d :=
  le_max_left _ _

theorem distanceToScore_le_one {d : ℚ} (h : 0 ≤ d) : distanceToScore d ≤ 1 :=
  max_le (by norm_num) (by linarith)

theorem distanceToScore_antitone {d1 d2 : ℚ} (h : d1 ≤ d2) :
    distanceToScore d2 ≤ distanceToScore d1 :=
  max_le_max le_rfl (by linarith)

theorem keywordOverlapScore_nonneg (q doc : Str) : 0 ≤ keywordOverlapScore q doc := by
  unfold keywordOverlapScore
  dsimp only
  split
  · norm_num
  · exact le_min (by norm_num)
      (div_nonneg (Nat.cast_nonneg _) (Nat.cast_nonneg _))

theorem keywordOverlapScore_le_one (q doc : Str) : keywordOverlapScore q doc ≤ 1 := by
  unfold keywordOverlapScore
  dsimp only
  split
  · norm_num
  · exact min_le_left _ _

theorem lengthScore_nonneg (doc : Str) : 0 ≤ lengthScore doc := by
  unfold lengthScore
  dsimp only
  split
  · exact div_nonneg (Nat.cast_nonneg _) (by norm_num)
  · split
    · exact le_trans (by norm_num) (le_max_left _ _)
    · norm_num

theorem lengthScore_le_one (doc : Str) : lengthScore doc ≤ 1 := by
  unfold lengthScore
  dsimp only
  split
  · rename_i h
    rw [div_le_one (by norm_num)]
    exact_mod_cast h.le
  · split
    · rename_i h1 h2
      refine max_le (by norm_num) ?h
      rw [div_le_one (by positivity)]
      exact_mod_cast by omega
    · norm_num

theorem metadataScore_nonneg (m : Option Meta) : 0 ≤ metadataScore m := by
  cases m with
  | none => norm_num [metadataScore]
  | some md =>
    simp only [metadataScore]
    refine le_min (by norm_num) ?h
    have h1 : (0 : ℚ) ≤ (match md.chunkIndex with
      | none => 0
      | some ci => if ci < 3 then 0.3 else if ci < 6 then 0.2 else 0.1) := by
      rcases md.chunkIndex with _ | ci
      · norm_num
      · simp only
        split <;> norm_num
        split <;> norm_num
    have h2 : (0 : ℚ) ≤ (match md.totalChunks with
      | none => 0
      | some t => if t ≤ 5 then 0.2 else if t ≤ 10 then 0.1 else 0) := by
      rcases md.totalChunks with _ | t
      · norm_num
      · simp only
        split <;> norm_num
        split <;> norm_num
    linarith

theorem metadataScore_le_one (m : Option Meta) : metadataScore m ≤ 1 := by
  cases m with
  | none => norm_num [metadataScore]
  | some md => exact min_le_left _ _

theorem combinedScore_nonneg (q doc : Str) (d : ℚ) (m : Option Meta) :
    0 ≤ combinedScore q doc d m := by
  unfold combinedScore
  have h1 := distanceToScore_nonneg d
  have h2 := keywordOverlapScore_nonneg q doc
  have h3 := lengthScore_nonneg doc
  have h4 := metadataScore_nonneg m
  nlinarith

theorem combinedScore_le_one (q doc : Str) {d : ℚ} (hd : 0 ≤ d) (m : Option Meta) :
    combinedScore q doc d m ≤ 1 := by
  unfold combinedScore
  have h1 := distanceToScore_le_one hd
  have h2 := keywordOverlapScore_le_one q doc
  have h3 := lengthScore_le_one doc
  have h4 := metadataScore_le_one m
  nlinarith

/-- Claim C8 (confirmed): for every candidate with non-negative distance,
the combined score computed by `rerank_documents` (via `combinedScore`,
the scoring expression of lines 59–64 of `rerank_service.py`) equals
exactly `0.4*similarity + 0.3*keyword + 0.2*length + 0.1*metadata`; each
of the four sub-scores lies in `[0, 1]`, and therefore the combined score
lies in `[0, 1]`. -/
theorem C8_combined_score_weights_and_bounds
    (q doc : Str) (d : ℚ) (m : Option Meta) (hd : 0 ≤ d) :
    combinedScore q doc d m =
        0.4 * distanceToScore d + 0.3 * keywordOverlapScore q doc +
          0.2 * lengthScore doc + 0.1 * metadataScore m ∧
      0 ≤ distanceToScore d ∧ distanceToScore d ≤ 1 ∧
      0 ≤ keywordOverlapScore q doc ∧ keywordOverlapScore q doc ≤ 1 ∧
      0 ≤ lengthScore doc ∧ lengthScore doc ≤ 1 ∧
      0 ≤ metadataScore m ∧ metadataScore m ≤ 1 ∧
      0 ≤ combinedScore q doc d m ∧ combinedScore q doc d m ≤ 1 := by
  refine ⟨by unfold combinedScore; ring, distanceToScore_nonneg d,
    distanceToScore_le_one hd, keywordOverlapScore_nonneg q doc,
    keywordOverlapScore_le_one q doc, lengthScore_nonneg doc,
    lengthScore_le_one doc, metadataScore_nonneg m, metadataScore_le_one m,
    combinedScore_nonneg q doc d m, combinedScore_le_one q doc hd m⟩

/-- Witness for C8 at a concrete candidate. -/
theorem C8_combined_score_weights_and_bounds_witness :
    (0 : ℚ) ≤ 1 ∧
      (combinedScore (S "hola") (S "doc") 1 none =
          0.4 * distanceToScore 1 + 0.3 * keywordOverlapScore (S "hola") (S "doc") +
            0.2 * lengthScore (S "doc") + 0.1 * metadataScore none ∧
        0 ≤ distanceToScore 1 ∧ distanceToScore 1 ≤ 1 ∧
        0 ≤ keywordOverlapScore (S "hola") (S "doc") ∧
        keywordOverlapScore (S "hola") (S "doc") ≤ 1 ∧
        0 ≤ lengthScore (S "doc") ∧ lengthScore (S "doc") ≤ 1 ∧
        0 ≤ metadataScore none ∧ metadataScore none ≤ 1 ∧
        0 ≤ combinedScore (S "hola") (S "doc") 1 none ∧
        combinedScore (S "hola") (S "doc") 1 none ≤ 1) :=
  ⟨by norm_num,
   C8_combined_score_weights_and_bounds (S "hola") (S "doc") 1 none (by norm_num)⟩

/-- Claim C7 (confirmed): for two candidates identical in text and metadata
and differing only in their non-negative distances, the one with the
smaller distance never receives a lower combined score; the similarity
sub-score is `max(0, 1 - distance/2)` and is non-increasing in the
distance. -/
theorem C7_score_monotone_in_distance
    (q doc : Str) (m : Option Meta) (d1 d2 : ℚ)
    (h1 : 0 ≤ d1) (h2 : 0 ≤ d2) (h12 : d1 ≤ d2) :
    combinedScore q doc d2 m ≤ combinedScore q doc d1 m ∧
      distanceToScore d1 = max 0 (1 - d1 / 2) ∧
      distanceToScore d2 ≤ distanceToScore d1 := by
  have hmono := distanceToScore_antitone h12
  refine ⟨?mono, rfl, hmono⟩
  unfold combinedScore
  nlinarith

/-- Witness for C7 at concrete distances 0 and 1. -/
theorem C7_score_monotone_in_distance_witness :
    (0 : ℚ) ≤ 0 ∧ (0 : ℚ) ≤ 1 ∧ (0 : ℚ) ≤ 1 ∧
      (combinedScore (S "hola") (S "doc") 1 none ≤
          combinedScore (S "hola") (S "doc") 0 none ∧
        distanceToScore 0 = max 0 (1 - 0 / 2) ∧
        distanceToScore 1 ≤ distanceToScore 0) :=
  ⟨le_rfl, by norm_num, by norm_num,
   C7_score_monotone_in_distance (S "hola") (S "doc") none 0 1
     le_rfl (by norm_num) (by norm_num)⟩

/-! ## C1, C3: absence of parameter validation -/

/-- Claim C1 (corrected): `split_text_into_chunks` performs no parameter
validation whatsoever — no `ConfigurationError` exists anywhere in the
repository.  For any parameters, valid or invalid, it runs the chunking
pipeline and returns a list whose members all pass the final
`len(c) > 50` filter. -/
theorem C1_chunker_never_fails
    (text : Str) (chunkSize overlap : Int) (c : Str)
    (hc : c ∈ splitTextIntoChunks text chunkSize overlap) : 50 < c.length := by
  simp only [splitTextIntoChunks, List.mem_filter, Bool.and_eq_true,
    decide_eq_true_eq] at hc
  exact hc.2.2

/-- Counterexample to C1 as stated: with the invalid parameters
`chunk_size = 0`, `overlap = 0` (`chunk_size <= 0` and
`overlap >= chunk_size`), the call returns an ordinary chunk list instead
of failing with a `ConfigurationError`. -/
theorem C1_chunker_never_fails_counterexample :
    splitTextIntoChunks
        (S "aaaaaaaaaaaaaaaaaaaaaaaaaaaaaaaaaaaaaaaaaaaaaaaaaaaaaaaaaaaa") 0 0 =
      [S "aaaaaaaaaaaaaaaaaaaaaaaaaaaaaaaaaaaaaaaaaaaaaaaaaaaaaaaaaaaa"] := by
  decide

/-- Witness for C1 at a concrete (invalid-parameter) input. -/
theorem C1_chunker_never_fails_witness :
    (S "aaaaaaaaaaaaaaaaaaaaaaaaaaaaaaaaaaaaaaaaaaaaaaaaaaaaaaaaaaaa" ∈
        splitTextIntoChunks
          (S "aaaaaaaaaaaaaaaaaaaaaaaaaaaaaaaaaaaaaaaaaaaaaaaaaaaaaaaaaaaa") 0 0) ∧
      50 < (S "aaaaaaaaaaaaaaaaaaaaaaaaaaaaaaaaaaaaaaaaaaaaaaaaaaaaaaaaaaaa").length :=
  ⟨by decide,
   C1_chunker_never_fails
     (S "aaaaaaaaaaaaaaaaaaaaaaaaaaaaaaaaaaaaaaaaaaaaaaaaaaaaaaaaaaaa") 0 0
     (S "aaaaaaaaaaaaaaaaaaaaaaaaaaaaaaaaaaaaaaaaaaaaaaaaaaaaaaaaaaaa")
     (by decide)⟩

/-- The length of the `scored_docs` list: one entry per
`zip(documents, distances)` pair, so documents without a matching
distance are silently dropped. -/
theorem length_scoredDocuments (q : Str) (docs : List Str) (dists : List ℚ)
    (metas : List Meta) :
    (scoredDocuments q docs dists metas).length = min docs.length dists.length := by
  simp [scoredDocuments]

/-- Claim C3 (corrected): `rerank_documents` performs no validation at all —
no `InvalidArgument` error exists in the repository.  `top_k = 0` returns
empty result lists (not an error), and a document with no corresponding
distance is silently dropped by `zip` truncation rather than rejected. -/
theorem C3_rerank_never_fails (q : Str) (docs : List Str) (dists : List ℚ)
    (metas : List Meta) :
    rerankDocuments q docs dists metas 0 = ([], [], []) ∧
      (scoredDocuments q docs dists metas).length = min docs.length dists.length := by
  refine ⟨?top0, length_scoredDocuments q docs dists metas⟩
  unfold rerankDocuments
  split
  · rfl
  · simp [pySliceTo]

/-- Counterexample to C3 as stated: `top_k = 0 <= 0` with a well-formed
candidate returns the empty result, not an `InvalidArgument` error. -/
theorem C3_rerank_never_fails_counterexample :
    rerankDocuments (S "query") [S "a doc"] [(0 : ℚ)] [] 0 = ([], [], []) := by
  with_unfolding_all decide

/-- Claim C4 (confirmed): for equal-length documents/distances/metadatas and
any `top_k = k ≥ 1`, `rerank_documents` returns exactly
`min(k, n)` documents together with as many scores and metadatas; an
empty candidate list yields the empty result, not an error. -/
theorem C4_rerank_topk_contract (q : Str) (docs : List Str) (dists : List ℚ)
    (metas : List Meta) (k : Int)
    (hd : dists.length = docs.length) (hm : metas.length = docs.length)
    (hk : 1 ≤ k) :
    (docs = [] → rerankDocuments q docs dists metas k = ([], [], [])) ∧
      (rerankDocuments q docs dists metas k).1.length = min k.toNat docs.length ∧
      (rerankDocuments q docs dists metas k).2.1.length = min k.toNat docs.length ∧
      (rerankDocuments q docs dists metas k).2.2.length = min k.toNat docs.length := by
  have h0 : (0 : Int) ≤ k := by omega
  refine ⟨fun h => by simp [rerankDocuments, h], ?l1⟩
  by_cases h : docs = []
  · subst h
    simp [rerankDocuments]
  · unfold rerankDocuments
    rw [if_neg h]
    simp [pySliceTo, h0, List.length_take, List.length_insertionSort,
      length_scoredDocuments, hd]

/-- Witness for C4 at a concrete two-candidate instance with `top_k = 1`. -/
theorem C4_rerank_topk_contract_witness :
    (([(0 : ℚ), 1] : List ℚ).length = ([S "docA", S "docB"] : List Str).length) ∧
      (([⟨none, none⟩, ⟨some 0, some 3⟩] : List Meta).length =
        ([S "docA", S "docB"] : List Str).length) ∧
      (1 : Int) ≤ 1 ∧
      ((([S "docA", S "docB"] : List Str) = [] →
          rerankDocuments (S "q") [S "docA", S "docB"] [(0 : ℚ), 1]
            [⟨none, none⟩, ⟨some 0, some 3⟩] 1 = ([], [], [])) ∧
        (rerankDocuments (S "q") [S "docA", S "docB"] [(0 : ℚ), 1]
            [⟨none, none⟩, ⟨some 0, some 3⟩] 1).1.length =
          min (1 : Int).toNat ([S "docA", S "docB"] : List Str).length ∧
        (rerankDocuments (S "q") [S "docA", S "docB"] [(0 : ℚ), 1]
            [⟨none, none⟩, ⟨some 0, some 3⟩] 1).2.1.length =
          min (1 : Int).toNat ([S "docA", S "docB"] : List Str).length ∧
        (rerankDocuments (S "q") [S "docA", S "docB"] [(0 : ℚ), 1]
            [⟨none, none⟩, ⟨some 0, some 3⟩] 1).2.2.length =
          min (1 : Int).toNat ([S "docA", S "docB"] : List Str).length) :=
  ⟨rfl, rfl, le_rfl,
   C4_rerank_topk_contract (S "q") [S "docA", S "docB"] [(0 : ℚ), 1]
     [⟨none, none⟩, ⟨some 0, some 3⟩] 1 rfl rfl le_rfl⟩

/-- Claim C10 (confirmed): for every candidate, the `combined_score`
reported by `get_rerank_explanation` is exactly the three-decimal
rounding of the combined score that `rerank_documents` assigns to the
same candidate — both paths compute the same four sub-scores and combine
them with the same 0.4/0.3/0.2/0.1 weights. -/
theorem C10_explanation_matches_rerank_score (q : Str) (docs : List Str)
    (dists : List ℚ) (metas : List Meta) (i : Nat)
    (h1 : i < (rerankExplanations q docs dists metas).length)
    (h2 : i < (scoredDocuments q docs dists metas).length) :
    ((rerankExplanations q docs dists metas)[i]).combined =
      round3 (((scoredDocuments q docs dists metas)[i]).score) := by
  simp only [rerankExplanations, scoredDocuments, List.getElem_map]
  rfl

/-- Witness for C10 at a concrete candidate. -/
theorem C10_explanation_matches_rerank_score_witness :
    (0 < (rerankExplanations (S "q") [S "docA"] [(1 : ℚ)] []).length) ∧
      (0 < (scoredDocuments (S "q") [S "docA"] [(1 : ℚ)] []).length) ∧
      ((rerankExplanations (S "q") [S "docA"] [(1 : ℚ)] []).get
            (Fin.mk 0 (by decide))).combined =
        round3 (((scoredDocuments (S "q") [S "docA"] [(1 : ℚ)] []).get
          (Fin.mk 0 (by decide))).score) :=
  ⟨by decide, by decide,
   C10_explanation_matches_rerank_score (S "q") [S "docA"] [(1 : ℚ)] [] 0
     (by decide) (by decide)⟩

/-! ## C9: repetitive-header removal -/

theorem count_filterMap_of_iff (f : Str → Option Str) (l : Str)
    (hf : ∀ a, f a = some l ↔ a = l) :
    ∀ L : List Str, (L.filterMap f).count l = L.count l := by
  intro L
  induction L with
  | nil => rfl
  | cons a L ih =>
    rw [List.filterMap_cons]
    by_cases ha : a = l
    · have hfa : f a = some l := (hf a).mpr ha
      rw [hfa]
      simp [List.count_cons, ha, ih]
    · cases h : f a with
      | none => simp [List.count_cons, ha, ih]
      | some b =>
        have hb : b ≠ l := fun he => ha ((hf a).mp (he ▸ h))
        simp [List.count_cons, ha, hb, ih]

theorem rrhFun_eq_some_iff (stripped : List Str) (l : Str)
    (hl : pyStrip l ≠ [])
    (hno : ¬ ((pyStrip l).length < 100 ∧ 3 < stripped.count (pyStrip l))) :
    ∀ a, rrhFun stripped a = some l ↔ a = l := by
  intro a
  unfold rrhFun
  dsimp only
  constructor
  · intro h
    by_cases hs : pyStrip a = []
    · rw [if_neg (fun hc => hc hs)] at h
      exact absurd ((Option.some.inj h).symm ▸ hl) (fun hc => hc rfl)
    · rw [if_pos hs] at h
      by_cases hrep : (pyStrip a).length < 100 ∧ 3 < stripped.count (pyStrip a)
      · rw [if_pos hrep] at h
        exact Option.noConfusion h
      · rw [if_neg hrep] at h
        exact Option.some.inj h
  · intro h
    subst h
    rw [if_pos hl, if_neg hno]

theorem not_mem_rrhKept_of_repetitive (t l : Str)
    (hl : pyStrip l ≠ [])
    (hrep : (pyStrip l).length < 100 ∧
      3 < ((splitLines t).map pyStrip).count (pyStrip l)) :
    l ∉ rrhKept t := by
  intro hmem
  obtain ⟨a, _, hfa⟩ := List.mem_filterMap.mp hmem
  unfold rrhFun at hfa
  dsimp only at hfa
  by_cases hs : pyStrip a = []
  · rw [if_neg (fun hc => hc hs)] at hfa
    exact absurd ((Option.some.inj hfa).symm ▸ hl) (fun hc => hc rfl)
  · rw [if_pos hs] at hfa
    by_cases hr : (pyStrip a).length < 100 ∧
        3 < ((splitLines t).map pyStrip).count (pyStrip a)
    · rw [if_pos hr] at hfa
      exact Option.noConfusion hfa
    · rw [if_neg hr] at hfa
      exact hr ((Option.some.inj hfa) ▸ hrep)

/-- Claim C9 (confirmed): cleaning the 8-line `Página 3` / `Hola mundo`
document removes all four `Página 3` lines (they match the footer
pattern) and leaves exactly three `Hola mundo` lines followed by
`Adiós`; and in `_remove_repetitive_headers`, every stripped line shorter
than 100 characters occurring more than 3 times is removed from every
occurrence, while a non-blank line occurring at most 3 times is kept at
every occurrence. -/
theorem C9_repetitive_headers :
    (cleanExtractedText
        (S "Página 3\nHola mundo\nPágina 3\nHola mundo\nPágina 3\nHola mundo\nPágina 3\nAdiós") =
      S "Hola mundo\nHola mundo\nHola mundo\nAdiós") ∧
    ∀ (t l : Str), l ∈ splitLines t → pyStrip l ≠ [] →
      (((pyStrip l).length < 100 ∧
          3 < ((splitLines t).map pyStrip).count (pyStrip l)) →
        l ∉ rrhKept t) ∧
      (¬ 3 < ((splitLines t).map pyStrip).count (pyStrip l) →
        (rrhKept t).count l = (splitLines t).count l) := by
  refine ⟨by decide, ?gen⟩
  intro t l _ hl
  refine ⟨not_mem_rrhKept_of_repetitive t l hl, ?keep⟩
  intro hcount
  exact count_filterMap_of_iff _ l
    (rrhFun_eq_some_iff _ l hl (fun hc => hcount hc.2)) _

/-- Witness for C9: the line `Hola mundo` occurs 3 times (not more than 3)
in the cleaned-scenario text, so every occurrence is kept. -/
theorem C9_repetitive_headers_witness :
    (S "Hola mundo" ∈ splitLines (S "Hola mundo\nHola mundo\nHola mundo\nAdiós")) ∧
      pyStrip (S "Hola mundo") ≠ [] ∧
      (¬ 3 < ((splitLines (S "Hola mundo\nHola mundo\nHola mundo\nAdiós")).map
          pyStrip).count (pyStrip (S "Hola mundo"))) ∧
      (rrhKept (S "Hola mundo\nHola mundo\nHola mundo\nAdiós")).count (S "Hola mundo") =
        (splitLines (S "Hola mundo\nHola mundo\nHola mundo\nAdiós")).count (S "Hola mundo") :=
  ⟨by decide, by decide, by decide,
   ((C9_repetitive_headers.2 (S "Hola mundo\nHola mundo\nHola mundo\nAdiós")
       (S "Hola mundo") (by decide) (by decide)).2 (by decide))⟩

/-! ## Length lemmas for the cleaning pipeline (C6) -/

theorem pyStrip_length_le (l : Str) : (pyStrip l).length ≤ l.length := by
  unfold pyStrip
  calc ((l.dropWhile isPySpace).reverse.dropWhile isPySpace).reverse.length
      = ((l.dropWhile isPySpace).reverse.dropWhile isPySpace).length := by
        rw [List.length_reverse]
    _ ≤ (l.dropWhile isPySpace).reverse.length :=
        (List.dropWhile_sublist _).length_le
    _ = (l.dropWhile isPySpace).length := by rw [List.length_reverse]
    _ ≤ l.length := (List.dropWhile_sublist _).length_le

theorem rrAux_length_le : ∀ (s : Str) (c : Char) (n : Nat),
    (rrAux c n s).length ≤ n + s.length := by
  intro s
  induction s with
  | nil =>
    intro c n
    simp only [rrAux]
    split
    · simp
    · simp
  | cons x rest ih =>
    intro c n
    simp only [rrAux]
    split
    · have := ih c (n + 1)
      simpa [Nat.add_comm, Nat.add_assoc, Nat.add_left_comm] using this
    · have h1 : (if 11 ≤ n ∧ c ≠ '\n' then ([] : Str) else List.replicate n c).length ≤ n := by
        split <;> simp
      have h2 := ih x 1
      simp only [List.length_append, List.length_cons]
      omega

theorem removeRuns_length_le (s : Str) : (removeRuns s).length ≤ s.length := by
  cases s with
  | nil => simp [removeRuns]
  | cons c rest =>
    have := rrAux_length_le rest c 1
    simpa [removeRuns, Nat.add_comm] using this

theorem crAux_length_le (ch : Char) (thr keep : Nat) (hk : keep ≤ thr) :
    ∀ (s : Str) (n : Nat), (crAux ch thr keep n s).length ≤ n + s.length := by
  intro s
  induction s with
  | nil =>
    intro n
    simp only [crAux]
    split
    · rename_i h
      simp only [List.length_replicate, List.length_nil]
      omega
    · simp
  | cons c rest ih =>
    intro n
    simp only [crAux]
    split
    · have := ih (n + 1)
      simpa [Nat.add_comm, Nat.add_assoc, Nat.add_left_comm] using this
    · have h1 : (if thr ≤ n then List.replicate keep ch else List.replicate n ch).length ≤ n := by
        split
        · rename_i h
          simp only [List.length_replicate]
          omega
        · simp
      have h2 := ih 0
      simp only [List.length_append, List.length_cons]
      omega

theorem collapseRunsOf_length_le (ch : Char) (thr keep : Nat) (hk : keep ≤ thr)
    (s : Str) : (collapseRunsOf ch thr keep s).length ≤ s.length := by
  have := crAux_length_le ch thr keep hk s 0
  simpa [collapseRunsOf] using this

theorem splitLines_ne_nil (s : Str) : splitLines s ≠ [] := by
  cases s with
  | nil => simp [splitLines]
  | cons c rest =>
    simp only [splitLines]
    split
    · simp
    · split <;> simp

theorem joinLines_splitLines : ∀ s : Str, joinLines (splitLines s) = s := by
  intro s
  induction s with
  | nil => rfl
  | cons c rest ih =>
    simp only [splitLines]
    by_cases hc : c = '\n'
    · rw [if_pos hc]
      cases hM : splitLines rest with
      | nil => exact absurd hM (splitLines_ne_nil rest)
      | cons m ms =>
        show joinLines ([] :: m :: ms) = c :: rest
        show ([] : Str) ++ '\n' :: joinLines (m :: ms) = c :: rest
        rw [List.nil_append, ← hM, ih, hc]
    · rw [if_neg hc]
      cases hM : splitLines rest with
      | nil => exact absurd hM (splitLines_ne_nil rest)
      | cons m ms =>
        cases ms with
        | nil =>
          have hrest : joinLines [m] = rest := by rw [← hM, ih]
          show c :: m = c :: rest
          rw [show m = joinLines [m] from rfl, hrest]
        | cons m2 ms2 =>
          show (c :: m) ++ '\n' :: joinLines (m2 :: ms2) = c :: rest
          have hrest : joinLines (m :: m2 :: ms2) = rest := by rw [← hM, ih]
          rw [List.cons_append]
          exact congrArg (List.cons c) hrest

theorem length_joinLines_le_of_cons (a : Str) (L : List Str) :
    (joinLines L).length ≤ (joinLines (a :: L)).length := by
  cases L with
  | nil => simp [joinLines]
  | cons b M =>
    show (joinLines (b :: M)).length ≤ (a ++ '\n' :: joinLines (b :: M)).length
    simp only [List.length_append, List.length_cons]
    omega

theorem joinLines_filterMap_length_le (f : Str → Option Str)
    (hf : ∀ a b, f a = some b → b.length ≤ a.length) :
    ∀ L : List Str, (joinLines (L.filterMap f)).length ≤ (joinLines L).length := by
  intro L
  induction L with
  | nil => simp
  | cons a L ih =>
    rw [List.filterMap_cons]
    cases h : f a with
    | none => exact le_trans ih (length_joinLines_le_of_cons a L)
    | some b =>
      have hb : b.length ≤ a.length := hf a b h
      cases L with
      | nil => simpa [joinLines] using hb
      | cons x xs =>
        cases hM : (x :: xs).filterMap f with
        | nil =>
          show (joinLines [b]).length ≤ (a ++ '\n' :: joinLines (x :: xs)).length
          simp only [joinLines, List.length_append, List.length_cons]
          omega
        | cons m ms =>
          rw [hM] at ih
          show (b ++ '\n' :: joinLines (m :: ms)).length ≤
            (a ++ '\n' :: joinLines (x :: xs)).length
          simp only [List.length_append, List.length_cons]
          omega

theorem lineFilter_length_le (a b : Str) (hab : lineFilter a = some b) :
    b.length ≤ a.length := by
  unfold lineFilter at hab
  dsimp only at hab
  split_ifs at hab
  exact (Option.some.inj hab) ▸ pyStrip_length_le a

theorem lineStage_length_le (t : Str) :
    (joinLines ((splitLines t).filterMap lineFilter)).length ≤ t.length := by
  have h := joinLines_filterMap_length_le lineFilter lineFilter_length_le (splitLines t)
  rwa [joinLines_splitLines] at h

theorem mapStrip_stage_length_le (t : Str) :
    (joinLines ((splitLines t).map pyStrip)).length ≤ t.length := by
  have h := joinLines_filterMap_length_le (fun a => some (pyStrip a))
    (fun a b hab => (Option.some.inj hab) ▸ pyStrip_length_le a) (splitLines t)
  rw [joinLines_splitLines] at h
  rw [show (fun a : Str => some (pyStrip a)) = some ∘ pyStrip from rfl,
    List.filterMap_eq_map] at h
  exact h

theorem rrhFun_length_le (stripped : List Str) (a b : Str)
    (hab : rrhFun stripped a = some b) : b.length ≤ a.length := by
  unfold rrhFun at hab
  dsimp only at hab
  split_ifs at hab
  · exact (Option.some.inj hab) ▸ le_rfl
  · have hb : b = [] := (Option.some.inj hab).symm
    simp [hb]

theorem removeRepetitiveHeaders_length_le (t : Str) :
    (removeRepetitiveHeaders t).length ≤ t.length := by
  unfold removeRepetitiveHeaders rrhKept
  have h := joinLines_filterMap_length_le _ (rrhFun_length_le ((splitLines t).map pyStrip))
    (splitLines t)
  rwa [joinLines_splitLines] at h

theorem cleanExtractedText_length_le (x : Str) :
    (cleanExtractedText x).length ≤ x.length := by
  unfold cleanExtractedText
  dsimp only
  calc (removeRepetitiveHeaders (joinLines ((splitLines (collapseRunsOf '\n' 4 3
          (collapseRunsOf ' ' 2 1 (joinLines ((splitLines (removeRuns
            (x.filter (fun c => ¬ isStripCtrl c)))).filterMap lineFilter))))).map
          pyStrip))).length
      ≤ (joinLines ((splitLines (collapseRunsOf '\n' 4 3
          (collapseRunsOf ' ' 2 1 (joinLines ((splitLines (removeRuns
            (x.filter (fun c => ¬ isStripCtrl c)))).filterMap lineFilter))))).map
          pyStrip)).length := removeRepetitiveHeaders_length_le _
    _ ≤ (collapseRunsOf '\n' 4 3 (collapseRunsOf ' ' 2 1 (joinLines ((splitLines
          (removeRuns (x.filter (fun c => ¬ isStripCtrl c)))).filterMap
          lineFilter)))).length := mapStrip_stage_length_le _
    _ ≤ (collapseRunsOf ' ' 2 1 (joinLines ((splitLines (removeRuns
          (x.filter (fun c => ¬ isStripCtrl c)))).filterMap lineFilter))).length :=
        collapseRunsOf_length_le _ _ _ (by norm_num) _
    _ ≤ (joinLines ((splitLines (removeRuns
          (x.filter (fun c => ¬ isStripCtrl c)))).filterMap lineFilter)).length :=
        collapseRunsOf_length_le _ _ _ (by norm_num) _
    _ ≤ (removeRuns (x.filter (fun c => ¬ isStripCtrl c))).length :=
        lineStage_length_le _
    _ ≤ (x.filter (fun c => ¬ isStripCtrl c)).length := removeRuns_length_le _
    _ ≤ x.length := List.length_filter_le _ _

/-- Claim C6 (corrected): cleaning is not idempotent — removing one long
run can splice together a new long run that only the next pass removes —
but a second pass never adds content:
`len(clean(clean(x))) <= len(clean(x))` for every input. -/
theorem C6_clean_second_pass_never_grows (x : Str) :
    (cleanExtractedText (cleanExtractedText x)).length ≤
      (cleanExtractedText x).length :=
  cleanExtractedText_length_le (cleanExtractedText x)

/-- Counterexample to C6 as stated: for
`x = "aaaaa" + "b"*11 + "aaaaaa"`, the first pass removes the `b`-run and
splices an 11-`a` run (`clean(x) = "a"*11`), which the second pass then
removes entirely (`clean(clean(x)) = ""`), so `clean(clean(x)) ≠ clean(x)`. -/
theorem C6_clean_second_pass_never_grows_counterexample :
    cleanExtractedText (cleanExtractedText (S "aaaaabbbbbbbbbbbaaaaaa")) ≠
      cleanExtractedText (S "aaaaabbbbbbbbbbbaaaaaa") := by
  decide

/-! ## C2: chunk size bound -/

theorem processParagraph_inv (cs ov : Int) (hov : 0 ≤ ov)
    (st : ChunkState) (p : Str)
    (hp : ((pyStrip p).length : Int) + 2 ≤ cs)
    (h1 : ∀ c ∈ st.chunks, (c.length : Int) ≤ cs + ov)
    (h2 : (st.current.length : Int) ≤ cs + ov) :
    (∀ c ∈ (processParagraph cs ov st p).chunks, (c.length : Int) ≤ cs + ov) ∧
      ((processParagraph cs ov st p).current.length : Int) ≤ cs + ov := by
  unfold processParagraph
  dsimp only
  by_cases h0 : pyStrip p = []
  · rw [if_pos h0]
    exact ⟨h1, h2⟩
  · rw [if_neg h0]
    by_cases hA : ((st.current.length : Int) + (pyStrip p).length + 2) ≤ cs
    · rw [if_pos hA]
      refine ⟨h1, ?cur⟩
      dsimp only
      by_cases hcur : st.current ≠ []
      · rw [if_pos hcur]
        simp only [List.length_append, List.length_cons]
        push_cast
        omega
      · rw [if_neg hcur]
        omega
    · rw [if_neg hA]
      by_cases hB : st.current ≠ []
      · rw [if_pos hB]
        dsimp only
        constructor
        · intro c hc
          rw [List.mem_append] at hc
          rcases hc with hc | hc
          · exact h1 c hc
          · rw [List.mem_singleton] at hc
            subst hc
            have := pyStrip_length_le st.current
            have hcast : ((pyStrip st.current).length : Int) ≤ (st.current.length : Int) := by
              exact_mod_cast this
            omega
        · by_cases hseed : st.prevSent ≠ [] ∧ ((st.prevSent.length : Int) ≤ ov)
          · rw [if_pos hseed]
            simp only [List.length_append, List.length_cons]
            push_cast
            omega
          · rw [if_neg hseed]
            omega
      · rw [if_neg hB]
        by_cases hC : ((pyStrip p).length : Int) > cs
        · omega
        · rw [if_neg hC]
          refine ⟨h1, ?cur2⟩
          dsimp only
          omega

theorem chunkFold_inv (cs ov : Int) (hov : 0 ≤ ov) :
    ∀ (paras : List Str) (st : ChunkState),
      (∀ p ∈ paras, ((pyStrip p).length : Int) + 2 ≤ cs) →
      (∀ c ∈ st.chunks, (c.length : Int) ≤ cs + ov) →
      ((st.current.length : Int) ≤ cs + ov) →
      (∀ c ∈ (paras.foldl (processParagraph cs ov) st).chunks,
          (c.length : Int) ≤ cs + ov) ∧
        (((paras.foldl (processParagraph cs ov) st).current.length : Int) ≤ cs + ov) := by
  intro paras
  induction paras with
  | nil =>
    intro st _ h1 h2
    exact ⟨h1, h2⟩
  | cons p ps ih =>
    intro st hp h1 h2
    rw [List.foldl_cons]
    have hstep := processParagraph_inv cs ov hov st p (hp p (List.mem_cons_self p ps)) h1 h2
    exact ih (processParagraph cs ov st p)
      (fun q hq => hp q (List.mem_cons_of_mem p hq)) hstep.1 hstep.2

/-- Claim C2 (corrected): the `chunk_size + overlap` bound holds only under
the additional hypothesis that every (stripped) paragraph of the
normalised text fits within `chunk_size` (`len(paragraph) + 2 <=
chunk_size`); then every emitted chunk has length at most
`chunk_size + overlap`.  Without that hypothesis the bound fails (see the
counterexample: one oversized paragraph with no sentence boundary is
emitted whole). -/
theorem C2_chunk_size_bound (text : Str) (cs ov : Int)
    (hcs : 0 < cs) (hov : 0 ≤ ov) (hovcs : ov < cs)
    (hps : ∀ p ∈ splitNN (collapseRunsOf '\n' 3 2 text),
      ((pyStrip p).length : Int) + 2 ≤ cs) :
    ∀ c ∈ splitTextIntoChunks text cs ov, (c.length : Int) ≤ cs + ov := by
  intro c hc
  unfold splitTextIntoChunks at hc
  dsimp only at hc
  rw [List.mem_filter] at hc
  obtain ⟨hmem, _⟩ := hc
  have hinv := chunkFold_inv cs ov hov (splitNN (collapseRunsOf '\n' 3 2 text))
    ⟨[], [], []⟩ hps (by intro c hc; exact absurd hc (List.not_mem_nil c))
    (by simp; omega)
  by_cases hcur :
      ((splitNN (collapseRunsOf '\n' 3 2 text)).foldl
        (processParagraph cs ov) ⟨[], [], []⟩).current ≠ []
  · rw [if_pos hcur] at hmem
    rw [List.mem_append] at hmem
    rcases hmem with hmem | hmem
    · exact hinv.1 c hmem
    · rw [List.mem_singleton] at hmem
      subst hmem
      have hle := pyStrip_length_le
        ((splitNN (collapseRunsOf '\n' 3 2 text)).foldl
          (processParagraph cs ov) ⟨[], [], []⟩).current
      have hcast : ((pyStrip _).length : Int) ≤ _ := Int.ofNat_le.mpr hle
      exact le_trans hcast hinv.2
  · rw [if_neg hcur] at hmem
    exact hinv.1 c hmem

/-- Counterexample to C2 as stated: with the valid parameters
`chunk_size = 55`, `overlap = 5`, a 70-character single-sentence paragraph
is emitted as one 70-character chunk, exceeding
`chunk_size + overlap = 60`. -/
theorem C2_chunk_size_bound_counterexample :
    (0 : Int) < 55 ∧ (0 : Int) ≤ 5 ∧ (5 : Int) < 55 ∧
      (S "aaaaaaaaaaaaaaaaaaaaaaaaaaaaaaaaaaaaaaaaaaaaaaaaaaaaaaaaaaaaaaaaaaaaaa" ∈
        splitTextIntoChunks
          (S "aaaaaaaaaaaaaaaaaaaaaaaaaaaaaaaaaaaaaaaaaaaaaaaaaaaaaaaaaaaaaaaaaaaaaa")
          55 5) ∧
      55 + 5 <
        ((S "aaaaaaaaaaaaaaaaaaaaaaaaaaaaaaaaaaaaaaaaaaaaaaaaaaaaaaaaaaaaaaaaaaaaaa").length : Int) := by
  refine ⟨by decide, by decide, by decide, by decide, by decide⟩

/-- Witness for C2 at a 55-character single-paragraph text with
`chunk_size = 60`, `overlap = 10`. -/
theorem C2_chunk_size_bound_witness :
    (0 : Int) < 60 ∧ (0 : Int) ≤ 10 ∧ (10 : Int) < 60 ∧
      (∀ p ∈ splitNN (collapseRunsOf '\n' 3 2
          (S "aaaaaaaaaaaaaaaaaaaaaaaaaaaaaaaaaaaaaaaaaaaaaaaaaaaaaaa")),
        ((pyStrip p).length : Int) + 2 ≤ 60) ∧
      (S "aaaaaaaaaaaaaaaaaaaaaaaaaaaaaaaaaaaaaaaaaaaaaaaaaaaaaaa" ∈
        splitTextIntoChunks
          (S "aaaaaaaaaaaaaaaaaaaaaaaaaaaaaaaaaaaaaaaaaaaaaaaaaaaaaaa") 60 10) ∧
      ((S "aaaaaaaaaaaaaaaaaaaaaaaaaaaaaaaaaaaaaaaaaaaaaaaaaaaaaaa").length : Int) ≤
        60 + 10 :=
  ⟨by decide, by decide, by decide, by decide, by decide,
   C2_chunk_size_bound
     (S "aaaaaaaaaaaaaaaaaaaaaaaaaaaaaaaaaaaaaaaaaaaaaaaaaaaaaaa") 60 10
     (by decide) (by decide) (by decide) (by decide)
     (S "aaaaaaaaaaaaaaaaaaaaaaaaaaaaaaaaaaaaaaaaaaaaaaaaaaaaaaa") (by decide)⟩

/-! ## C5: blank lines do not survive cleaning -/

theorem mem_splitLines_no_nl : ∀ (s : Str) (l : Str), l ∈ splitLines s → '\n' ∉ l := by
  intro s
  induction s with
  | nil =>
    intro l hl
    rw [show splitLines [] = [[]] from rfl, List.mem_singleton] at hl
    subst hl
    exact List.not_mem_nil _
  | cons c rest ih =>
    intro l hl
    simp only [splitLines] at hl
    by_cases hc : c = '\n'
    · rw [if_pos hc] at hl
      rcases List.mem_cons.mp hl with h | h
      · subst h; exact List.not_mem_nil _
      · exact ih l h
    · rw [if_neg hc] at hl
      cases hM : splitLines rest with
      | nil => exact absurd hM (splitLines_ne_nil rest)
      | cons h t =>
        rw [hM] at hl
        rcases List.mem_cons.mp hl with he | he
        · subst he
          intro hmem
          rcases List.mem_cons.mp hmem with h1 | h1
          · exact hc h1.symm
          · exact ih h (hM ▸ List.mem_cons_self h t) h1
        · exact ih l (hM ▸ List.mem_cons_of_mem h he)

theorem mem_dropWhile_of (p : Char → Bool) (c : Char) :
    ∀ l : Str, c ∈ l → p c = false → c ∈ l.dropWhile p := by
  intro l
  induction l with
  | nil => intro h; exact absurd h (List.not_mem_nil c)
  | cons a l ih =>
    intro hc hp
    rw [List.dropWhile_cons]
    by_cases ha : p a = true
    · rw [if_pos ha]
      rcases List.mem_cons.mp hc with he | he
      · rw [he] at hp; rw [hp] at ha; exact absurd ha (by simp)
      · exact ih he hp
    · rw [if_neg ha]
      exact hc

theorem head_dropWhile_false (p : Char → Bool) :
    ∀ (l : Str) (c : Char) (rest : Str), l.dropWhile p = c :: rest → p c = false := by
  intro l
  induction l with
  | nil => intro c rest h; exact absurd h (by simp)
  | cons a l ih =>
    intro c rest h
    rw [List.dropWhile_cons] at h
    by_cases ha : p a = true
    · rw [if_pos ha] at h
      exact ih c rest h
    · rw [if_neg ha] at h
      have : a = c := (List.cons.inj h).1
      rw [← this]
      exact Bool.eq_false_iff.mpr ha

theorem pyStrip_subset {c : Char} {l : Str} (h : c ∈ pyStrip l) : c ∈ l := by
  unfold pyStrip at h
  rw [List.mem_reverse] at h
  have h2 := (List.dropWhile_sublist (l := (l.dropWhile isPySpace).reverse)
    (p := isPySpace)).subset h
  rw [List.mem_reverse] at h2
  exact (List.dropWhile_sublist (l := l) (p := isPySpace)).subset h2

theorem mem_pyStrip_of {c : Char} {l : Str} (hc : c ∈ l)
    (hp : isPySpace c = false) : c ∈ pyStrip l := by
  unfold pyStrip
  rw [List.mem_reverse]
  apply mem_dropWhile_of _ _ _ _ hp
  rw [List.mem_reverse]
  exact mem_dropWhile_of _ _ _ hc hp

theorem exists_nonspace_of_pyStrip_ne_nil {l : Str} (h : pyStrip l ≠ []) :
    ∃ c, c ∈ pyStrip l ∧ isPySpace c = false := by
  unfold pyStrip at *
  cases hD : (l.dropWhile isPySpace).reverse.dropWhile isPySpace with
  | nil => rw [hD] at h; exact absurd rfl h
  | cons c rest =>
    refine ⟨c, ?mem, head_dropWhile_false _ _ _ _ hD⟩
    rw [List.mem_reverse]
    exact List.mem_cons_self c rest

theorem pyStrip_ne_nil_of_nonspace {l : Str} {c : Char} (hc : c ∈ l)
    (hp : isPySpace c = false) : pyStrip l ≠ [] := by
  intro he
  have := mem_pyStrip_of hc hp
  rw [he] at this
  exact List.not_mem_nil c this

theorem splitLines_no_nl_eq : ∀ l : Str, '\n' ∉ l → splitLines l = [l] := by
  intro l
  induction l with
  | nil => intro _; rfl
  | cons c rest ih =>
    intro h
    have hc : c ≠ '\n' := fun he => h (he ▸ List.mem_cons_self c rest)
    have hrest : '\n' ∉ rest := fun hm => h (List.mem_cons_of_mem c hm)
    simp only [splitLines, if_neg hc, ih hrest]

theorem splitLines_append_nl (l : Str) (hl : '\n' ∉ l) :
    ∀ rest : Str, splitLines (l ++ '\n' :: rest) = l :: splitLines rest := by
  induction l with
  | nil =>
    intro rest
    simp [splitLines]
  | cons c l ih =>
    intro rest
    have hc : c ≠ '\n' := fun he => hl (he ▸ List.mem_cons_self c l)
    have hl2 : '\n' ∉ l := fun hm => hl (List.mem_cons_of_mem c hm)
    rw [List.cons_append]
    simp only [splitLines, if_neg hc, ih hl2]

theorem splitLines_joinLines :
    ∀ ls : List Str, ls ≠ [] → (∀ l ∈ ls, '\n' ∉ l) →
      splitLines (joinLines ls) = ls := by
  intro ls
  induction ls with
  | nil => intro h; exact absurd rfl h
  | cons l ls ih =>
    intro _ hno
    cases ls with
    | nil =>
      show splitLines (joinLines [l]) = [l]
      exact splitLines_no_nl_eq l (hno l (List.mem_cons_self l []))
    | cons l2 ls2 =>
      show splitLines (l ++ '\n' :: joinLines (l2 :: ls2)) = l :: l2 :: ls2
      rw [splitLines_append_nl l (hno l (List.mem_cons_self l _))]
      rw [ih (by simp) (fun q hq => hno q (List.mem_cons_of_mem l hq))]

theorem crAux_append_break (ch : Char) (thr keep : Nat) (hch : ch ≠ '\n') :
    ∀ (l : Str) (n : Nat) (rest : Str),
      crAux ch thr keep n (l ++ '\n' :: rest) =
        crAux ch thr keep n l ++ '\n' :: crAux ch thr keep 0 rest := by
  intro l
  induction l with
  | nil =>
    intro n rest
    show crAux ch thr keep n ('\n' :: rest) = _
    simp only [crAux, if_neg (fun he : '\n' = ch => hch he.symm), List.nil_append]
  | cons c l ih =>
    intro n rest
    rw [List.cons_append]
    by_cases hc : c = ch
    · simp only [crAux, if_pos hc, ih]
    · simp only [crAux, if_neg hc, ih, List.append_assoc, List.cons_append]

theorem collapseRunsOf_joinLines (ch : Char) (thr keep : Nat) (hch : ch ≠ '\n')
    (hthr : 0 < thr) :
    ∀ ls : List Str,
      collapseRunsOf ch thr keep (joinLines ls) =
        joinLines (ls.map (collapseRunsOf ch thr keep)) := by
  intro ls
  induction ls with
  | nil =>
    show crAux ch thr keep 0 [] = joinLines []
    simp only [crAux, if_neg (by omega : ¬ thr ≤ 0), List.replicate_zero]
    rfl
  | cons l ls ih =>
    cases ls with
    | nil => rfl
    | cons l2 ls2 =>
      show collapseRunsOf ch thr keep (l ++ '\n' :: joinLines (l2 :: ls2)) = _
      unfold collapseRunsOf
      rw [crAux_append_break ch thr keep hch]
      show collapseRunsOf ch thr keep l ++ '\n' ::
          collapseRunsOf ch thr keep (joinLines (l2 :: ls2)) = _
      rw [ih]
      rfl

theorem mem_crAux (ch : Char) (thr keep : Nat) :
    ∀ (l : Str) (n : Nat) (x : Char), x ∈ crAux ch thr keep n l → x = ch ∨ x ∈ l := by
  intro l
  induction l with
  | nil =>
    intro n x hx
    simp only [crAux] at hx
    left
    rcases (by split at hx <;> exact List.eq_of_mem_replicate hx) with h
    exact h
  | cons c l ih =>
    intro n x hx
    simp only [crAux] at hx
    by_cases hc : c = ch
    · rw [if_pos hc] at hx
      rcases ih (n + 1) x hx with h | h
      · exact Or.inl h
      · exact Or.inr (List.mem_cons_of_mem c h)
    · rw [if_neg hc] at hx
      rw [List.mem_append] at hx
      rcases hx with hx | hx
      · left
        split at hx <;> exact List.eq_of_mem_replicate hx
      · rcases List.mem_cons.mp hx with h | h
        · exact Or.inr (h ▸ List.mem_cons_self c l)
        · rcases ih 0 x h with h2 | h2
          · exact Or.inl h2
          · exact Or.inr (List.mem_cons_of_mem c h2)

theorem mem_crAux_of (ch : Char) (thr keep : Nat) :
    ∀ (l : Str) (n : Nat) (x : Char), x ∈ l → x ≠ ch → x ∈ crAux ch thr keep n l := by
  intro l
  induction l with
  | nil =>
    intro n x hx
    exact absurd hx (List.not_mem_nil x)
  | cons c l ih =>
    intro n x hx hne
    simp only [crAux]
    by_cases hc : c = ch
    · rw [if_pos hc]
      rcases List.mem_cons.mp hx with h | h
      · exact absurd (h ▸ hc) hne
      · exact ih (n + 1) x h hne
    · rw [if_neg hc]
      rw [List.mem_append]
      rcases List.mem_cons.mp hx with h | h
      · exact Or.inr (h ▸ List.mem_cons_self c _)
      · exact Or.inr (List.mem_cons_of_mem c (ih 0 x h hne))

theorem crAux_nl_pass :
    ∀ l : Str, '\n' ∉ l → ∀ rest : Str,
      crAux '\n' 4 3 0 (l ++ rest) = l ++ crAux '\n' 4 3 0 rest := by
  intro l
  induction l with
  | nil => intro _ rest; rfl
  | cons c l ih =>
    intro hl rest
    have hc : c ≠ '\n' := fun he => hl (he ▸ List.mem_cons_self c l)
    have hl2 : '\n' ∉ l := fun hm => hl (List.mem_cons_of_mem c hm)
    rw [List.cons_append]
    simp only [crAux, if_neg hc, ih hl2, List.nil_append]
    rfl

theorem crAux_nl_one (d : Char) (hd : d ≠ '\n') (rest : Str) :
    crAux '\n' 4 3 1 (d :: rest) = '\n' :: crAux '\n' 4 3 0 (d :: rest) := by
  simp only [crAux, if_neg hd]
  rfl

theorem collapseNl_joinLines_id :
    ∀ ls : List Str, (∀ l ∈ ls, l ≠ [] ∧ '\n' ∉ l) →
      collapseRunsOf '\n' 4 3 (joinLines ls) = joinLines ls := by
  intro ls
  induction ls with
  | nil => intro _; rfl
  | cons l ls ih =>
    intro hg
    have hl := hg l (List.mem_cons_self l ls)
    cases ls with
    | nil =>
      show collapseRunsOf '\n' 4 3 (joinLines [l]) = joinLines [l]
      show crAux '\n' 4 3 0 l = l
      have hp := crAux_nl_pass l hl.2 []
      have h0 : crAux '\n' 4 3 0 ([] : Str) = [] := rfl
      rw [List.append_nil, h0, List.append_nil] at hp
      exact hp
    | cons l2 ls2 =>
      have hl2 := hg l2 (List.mem_cons_of_mem l (List.mem_cons_self l2 ls2))
      show crAux '\n' 4 3 0 (l ++ '\n' :: joinLines (l2 :: ls2)) = _
      rw [crAux_nl_pass l hl.2]
      show l ++ crAux '\n' 4 3 0 ('\n' :: joinLines (l2 :: ls2)) = _
      have hstep : crAux '\n' 4 3 0 ('\n' :: joinLines (l2 :: ls2)) =
          crAux '\n' 4 3 1 (joinLines (l2 :: ls2)) := by
        simp [crAux]
      rw [hstep]
      obtain ⟨d, l2tl, hd⟩ : ∃ d l2tl, l2 = d :: l2tl := by
        cases l2 with
        | nil => exact absurd rfl hl2.1
        | cons d t => exact ⟨d, t, rfl⟩
      have hdn : d ≠ '\n' := fun he => hl2.2 (he ▸ (hd ▸ List.mem_cons_self d l2tl))
      have hJ : ∃ rest, joinLines (l2 :: ls2) = d :: rest := by
        cases ls2 with
        | nil => exact ⟨l2tl, by rw [hd]; rfl⟩
        | cons l3 ls3 =>
          refine ⟨l2tl ++ '\n' :: joinLines (l3 :: ls3), ?he⟩
          show l2 ++ '\n' :: joinLines (l3 :: ls3) = _
          rw [hd, List.cons_append]
      obtain ⟨rest, hJ⟩ := hJ
      rw [hJ, crAux_nl_one d hdn, ← hJ]
      have hih := ih (fun q hq => hg q (List.mem_cons_of_mem l hq))
      show l ++ '\n' :: collapseRunsOf '\n' 4 3 (joinLines (l2 :: ls2)) = _
      rw [hih]
      rfl

theorem lineFilter_some_form (a b : Str) (hfa : lineFilter a = some b) :
    b = pyStrip a ∧ pyStrip a ≠ [] := by
  unfold lineFilter at hfa
  dsimp only at hfa
  split_ifs at hfa with h1 h2 h3 h4 h5
  exact ⟨(Option.some.inj hfa).symm, h1⟩

theorem keptLines_good (t2 : Str) :
    ∀ l ∈ (splitLines t2).filterMap lineFilter,
      ('\n' ∉ l) ∧ ∃ c, c ∈ l ∧ isPySpace c = false := by
  intro l hl
  obtain ⟨a, ha, hfa⟩ := List.mem_filterMap.mp hl
  obtain ⟨hb, hne⟩ := lineFilter_some_form a l hfa
  subst hb
  constructor
  · intro hm
    exact mem_splitLines_no_nl t2 a ha (pyStrip_subset hm)
  · exact exists_nonspace_of_pyStrip_ne_nil hne

/-- Claim C5 (corrected): blank lines do NOT survive cleaning — the
per-line filter of `_clean_extracted_text` drops every blank line, so no
blank line (and hence no double-newline paragraph separator) remains:
whenever the cleaned output is non-empty, every one of its lines contains
a non-whitespace character. -/
theorem C5_no_blank_line_survives (x : Str) (hne : cleanExtractedText x ≠ []) :
    ∀ l ∈ splitLines (cleanExtractedText x), ∃ c, c ∈ l ∧ isPySpace c = false := by
  by_cases hkept :
      (splitLines (removeRuns (x.filter (fun c => ¬ isStripCtrl c)))).filterMap
        lineFilter = []
  · exfalso
    apply hne
    show removeRepetitiveHeaders (joinLines ((splitLines (collapseRunsOf '\n' 4 3
      (collapseRunsOf ' ' 2 1 (joinLines ((splitLines (removeRuns
        (x.filter (fun c => ¬ isStripCtrl c)))).filterMap lineFilter))))).map
        pyStrip)) = []
    rw [hkept]
    rfl
  · set ls := (splitLines (removeRuns (x.filter (fun c => ¬ isStripCtrl c)))).filterMap
      lineFilter with hls
    have hg : ∀ l ∈ ls, ('\n' ∉ l) ∧ ∃ c, c ∈ l ∧ isPySpace c = false :=
      keptLines_good _
    have hcollapse : collapseRunsOf ' ' 2 1 (joinLines ls) =
        joinLines (ls.map (collapseRunsOf ' ' 2 1)) :=
      collapseRunsOf_joinLines ' ' 2 1 (by decide) (by norm_num) ls
    have hg4 : ∀ l ∈ ls.map (collapseRunsOf ' ' 2 1),
        (l ≠ [] ∧ '\n' ∉ l) ∧ ∃ c, c ∈ l ∧ isPySpace c = false := by
      intro l hl
      obtain ⟨a, ha, rfl⟩ := List.mem_map.mp hl
      obtain ⟨hanl, c, hc, hcp⟩ := hg a ha
      have hcs : c ≠ ' ' := by
        intro he
        rw [he] at hcp
        exact absurd hcp (by decide)
      have hcmem : c ∈ collapseRunsOf ' ' 2 1 a := mem_crAux_of ' ' 2 1 a 0 c hc hcs
      refine ⟨⟨List.ne_nil_of_mem hcmem, ?nl⟩, c, hcmem, hcp⟩
      intro hm
      rcases mem_crAux ' ' 2 1 a 0 '\n' hm with h | h
      · exact absurd h (by decide)
      · exact hanl h
    have hmapne : ls.map (collapseRunsOf ' ' 2 1) ≠ [] := by
      intro he
      rw [List.map_eq_nil] at he
      exact hkept (hls ▸ he)
    have hnl5 : collapseRunsOf '\n' 4 3 (collapseRunsOf ' ' 2 1 (joinLines ls)) =
        collapseRunsOf ' ' 2 1 (joinLines ls) := by
      rw [hcollapse]
      exact collapseNl_joinLines_id _ (fun l hl => (hg4 l hl).1)
    have hsplit5 : splitLines (collapseRunsOf '\n' 4 3
        (collapseRunsOf ' ' 2 1 (joinLines ls))) = ls.map (collapseRunsOf ' ' 2 1) := by
      rw [hnl5, hcollapse]
      exact splitLines_joinLines _ hmapne (fun l hl => (hg4 l hl).1.2)
    have hg6 : ∀ l ∈ (ls.map (collapseRunsOf ' ' 2 1)).map pyStrip,
        ('\n' ∉ l) ∧ ∃ c, c ∈ l ∧ isPySpace c = false := by
      intro l hl
      obtain ⟨a, ha, rfl⟩ := List.mem_map.mp hl
      obtain ⟨⟨_, hanl⟩, c, hc, hcp⟩ := hg4 a ha
      exact ⟨fun hm => hanl (pyStrip_subset hm), c, mem_pyStrip_of hc hcp, hcp⟩
    have hmapne2 : (ls.map (collapseRunsOf ' ' 2 1)).map pyStrip ≠ [] := by
      intro he
      rw [List.map_eq_nil] at he
      exact hmapne he
    have hsplit6 : splitLines (joinLines ((splitLines (collapseRunsOf '\n' 4 3
        (collapseRunsOf ' ' 2 1 (joinLines ls)))).map pyStrip)) =
        (ls.map (collapseRunsOf ' ' 2 1)).map pyStrip := by
      rw [hsplit5]
      exact splitLines_joinLines _ hmapne2 (fun l hl => (hg6 l hl).1)
    have hgk : ∀ l ∈ rrhKept (joinLines ((splitLines (collapseRunsOf '\n' 4 3
        (collapseRunsOf ' ' 2 1 (joinLines ls)))).map pyStrip)),
        ('\n' ∉ l) ∧ ∃ c, c ∈ l ∧ isPySpace c = false := by
      intro l hl
      unfold rrhKept at hl
      obtain ⟨a, ha, hfa⟩ := List.mem_filterMap.mp hl
      rw [hsplit6] at ha
      obtain ⟨hanl, c, hc, hcp⟩ := hg6 a ha
      have hpsa : pyStrip a ≠ [] := pyStrip_ne_nil_of_nonspace hc hcp
      unfold rrhFun at hfa
      dsimp only at hfa
      split_ifs at hfa with h1 h2
      all_goals first
        | exact Option.noConfusion hfa
        | exact absurd hpsa (fun hcon => h1 hcon)
        | (have hal : a = l := Option.some.inj hfa
           subst hal
           exact ⟨hanl, c, hc, hcp⟩)
    have hout : cleanExtractedText x = joinLines (rrhKept (joinLines ((splitLines
        (collapseRunsOf '\n' 4 3 (collapseRunsOf ' ' 2 1
          (joinLines ls)))).map pyStrip))) := rfl
    have hkne : rrhKept (joinLines ((splitLines (collapseRunsOf '\n' 4 3
        (collapseRunsOf ' ' 2 1 (joinLines ls)))).map pyStrip)) ≠ [] := by
      intro he
      apply hne
      rw [hout, he]
      rfl
    have hfinal : splitLines (cleanExtractedText x) = rrhKept (joinLines ((splitLines
        (collapseRunsOf '\n' 4 3 (collapseRunsOf ' ' 2 1
          (joinLines ls)))).map pyStrip)) := by
      rw [hout]
      exact splitLines_joinLines _ hkne (fun l hl => (hgk l hl).1)
    intro l hl
    rw [hfinal] at hl
    exact (hgk l hl).2

/-- Counterexample to C5 as stated: the blank line separating the two
paragraphs of the input is dropped by the per-line cleaning loop, so the
`\n\n` paragraph separator of the input becomes a single `\n` in the
cleaned output. -/
theorem C5_no_blank_line_survives_counterexample :
    cleanExtractedText
        (S "Hello world line one" ++ ['\n', '\n'] ++ S "Second paragraph here") =
      S "Hello world line one" ++ ['\n'] ++ S "Second paragraph here" := by
  decide

/-- Witness for C5 at the two-paragraph input. -/
theorem C5_no_blank_line_survives_witness :
    (cleanExtractedText
        (S "Hello world line one" ++ ['\n', '\n'] ++ S "Second paragraph here") ≠ []) ∧
      ∃ c, c ∈ S "Hello world line one" ∧ isPySpace c = false :=
  ⟨by decide,
   C5_no_blank_line_survives
     (S "Hello world line one" ++ ['\n', '\n'] ++ S "Second paragraph here")
     (by decide) (S "Hello world line one") (by decide)⟩
